import Mathlib

/-!
Shallow embedding of the core of the emoji-prime-llm-bridge repository:
`src/utils/llm-sampler.ts` (class LLMEmojiSampler), the data declarations of
`src/types/llm.ts` (inlined in the sampler source), and the two algorithmic
functions of the display layer `src/components/EmojiTapeDisplay.tsx`
(`calculateGodelNumber`, `calculatePrime2Variance`).

Modelling conventions:
* JavaScript numbers are modelled as real numbers (ℝ); `BigInt` values are
  modelled as ℕ (every Gödel number produced is a product of prime powers,
  hence non-negative).
* A JavaScript string iterated with `for (const x of s)` or `Array.from(s)`
  yields Unicode codepoints; we model strings as Lean `String` and iteration
  as `String.toList` (Lean `Char` = Unicode scalar value = codepoint).
* JavaScript `String.prototype.length` counts UTF-16 code units, not
  codepoints; it is modelled by `jsStringLength` below.
* The per-model initialization caches (`tokenizers`, `embedders` maps) store
  opaque pipeline handles; only key membership is ever observed by the code
  under study, so the state is modelled as the lists of initialized keys.
* `Math.random()` (used only by the synthetic layer simulation) and the
  wall-clock `performance.now()` difference are modelled as explicit
  parameters (`noise`, `processingTime`).
-/

namespace EmojiPrime

/-- `EmojiPrimeMapping` from `src/types/llm.ts`.  Every registry emoji is a
single Unicode codepoint, so `emoji` is modelled as `Char`. -/
structure EmojiPrimeMapping where
  emoji : Char
  prime : ℕ
  meaning : String
  vibe : String
  deriving Repr, DecidableEq

/-- The 10-entry registry `INTRINSIC_PRIMES` from `src/types/llm.ts`. -/
def INTRINSIC_PRIMES : List EmojiPrimeMapping := [
  ⟨'🎩', 2, "Creativity", "Initialize state or vector"⟩,
  ⟨'🎲', 3, "Chaos", "Branch/call"⟩,
  ⟨'🔢', 5, "Structure", "Load/store data"⟩,
  ⟨'🎶', 7, "Harmony", "Arithmetic operations"⟩,
  ⟨'🎷', 11, "Expression", "Output/store"⟩,
  ⟨'📜', 13, "Legacy", "Self-description"⟩,
  ⟨'🧬', 17, "Evolution", "LLM interaction"⟩,
  ⟨'🎯', 19, "Focus", "Comparison"⟩,
  ⟨'🚀', 23, "Launch", "Deploy contract"⟩,
  ⟨'🪐', 29, "System", "Phase control"⟩]

/-- `EMOJI_BLOCK_TAPE` from `src/types/llm.ts`. -/
def EMOJI_BLOCK_TAPE : String := "🪐🎩🔢🎲🎶🎷📜|🪐🎷🧬🎲📜|🪐🎶🔢🎯🎲📜🚀"

/-- `PrimeMappedEmbedding` from `src/types/llm.ts`. -/
structure PrimeMappedEmbedding where
  prime : ℕ
  emoji : Char
  activation : ℝ
  normalizedActivation : ℝ
  rank : ℕ

/-- The `hierarchy` field of `GodelEncoding`. -/
structure GodelHierarchy where
  size : ℕ
  program : String
  cycles : ℕ

/-- `GodelEncoding` from `src/types/llm.ts` (`godelNumber : bigint` modelled
as ℕ). -/
structure GodelEncoding where
  tapeSegment : String
  godelNumber : ℕ
  primeMappings : List PrimeMappedEmbedding
  hierarchy : GodelHierarchy

/-- The lookup map `new Map(INTRINSIC_PRIMES.map(p => [p.emoji, p.prime]))`
built inside `encodeAsGodel` (and, identically, inside the display layer's
`calculateGodelNumber`): first registry entry with the given emoji. -/
def primeOf (c : Char) : Option ℕ :=
  (INTRINSIC_PRIMES.find? (fun p => p.emoji == c)).map (fun p => p.prime)

/-- The exponent chosen by `encodeAsGodel` for a recognized prime `p`:
`mapping ? Math.max(1, Math.floor(Math.abs(mapping.normalizedActivation) * 5)) : 1`
where `mapping = primeMappings.find(m => m.prime === p)`. -/
noncomputable def godelExponent (primeMappings : List PrimeMappedEmbedding) (p : ℕ) : ℕ :=
  match primeMappings.find? (fun m => m.prime == p) with
  | some mapping => max 1 (Int.toNat ⌊|mapping.normalizedActivation| * 5⌋)
  | none => 1

/-- Number of UTF-16 code units of one codepoint, with their values
(`charCodeAt`): basic-plane codepoints are one unit, astral codepoints are a
surrogate pair. -/
def utf16Units (c : Char) : List ℕ :=
  if c.toNat < 0x10000 then [c.toNat]
  else [0xD800 + (c.toNat - 0x10000) / 0x400, 0xDC00 + (c.toNat - 0x10000) % 0x400]

/-- JavaScript `String.prototype.length`: the number of UTF-16 code units. -/
def jsStringLength (s : String) : ℕ :=
  (s.toList.map (fun c => (utf16Units c).length)).sum

/-- `encodeAsGodel` from `src/utils/llm-sampler.ts`:
iterate the segment's codepoints, multiplying `prime ^ exponent` for each
emoji found in the registry; `hierarchy.size` is the JavaScript
`tapeSegment.length` (UTF-16 code units) and `cycles` is
`Math.floor(tapeSegment.length / 7)`. -/
noncomputable def encodeAsGodel (tapeSegment : String)
    (primeMappings : List PrimeMappedEmbedding) : GodelEncoding :=
  let godelNumber := tapeSegment.toList.foldl (fun godel emoji =>
    match primeOf emoji with
    | some prime => godel * prime ^ godelExponent primeMappings prime
    | none => godel) 1
  { tapeSegment := tapeSegment
    godelNumber := godelNumber
    primeMappings := primeMappings
    hierarchy :=
      { size := jsStringLength tapeSegment
        program := tapeSegment
        cycles := jsStringLength tapeSegment / 7 } }

/-- `calculateGodelNumber` from `src/components/EmojiTapeDisplay.tsx`:
strip the `'|'` separators (`tape.replace(/\|/g, '')`), then multiply the raw
registry prime (exponent 1) of each recognized emoji. -/
def calculateGodelNumber (tape : String) : ℕ :=
  (tape.toList.filter (fun c => c != '|')).foldl (fun godel emoji =>
    match primeOf emoji with
    | some prime => godel * prime
    | none => godel) 1

/-- Per-codepoint factor contributed to the core Gödel number. -/
noncomputable def godelFactor (primeMappings : List PrimeMappedEmbedding) (c : Char) : ℕ :=
  match primeOf c with
  | some prime => prime ^ godelExponent primeMappings prime
  | none => 1

/-- Per-codepoint factor contributed to the display-layer Gödel number. -/
def displayFactor (c : Char) : ℕ :=
  match primeOf c with
  | some prime => prime
  | none => 1

lemma godel_foldl (primeMappings : List PrimeMappedEmbedding) :
    ∀ (l : List Char) (a : ℕ),
      (l.foldl (fun godel emoji =>
        match primeOf emoji with
        | some prime => godel * prime ^ godelExponent primeMappings prime
        | none => godel) a) = a * (l.map (godelFactor primeMappings)).prod := by
  intro l
  induction l with
  | nil => intro a; simp
  | cons c l ih =>
      intro a
      rw [List.foldl_cons, ih, List.map_cons, List.prod_cons]
      unfold godelFactor
      cases primeOf c <;> (simp only [mul_one]; ring)

lemma godelNumber_eq_prod (s : String) (primeMappings : List PrimeMappedEmbedding) :
    (encodeAsGodel s primeMappings).godelNumber
      = (s.toList.map (godelFactor primeMappings)).prod := by
  show s.toList.foldl _ 1 = _
  rw [godel_foldl, one_mul]

lemma display_foldl :
    ∀ (l : List Char) (a : ℕ),
      (l.foldl (fun godel emoji =>
        match primeOf emoji with
        | some prime => godel * prime
        | none => godel) a) = a * (l.map displayFactor).prod := by
  intro l
  induction l with
  | nil => intro a; simp
  | cons c l ih =>
      intro a
      rw [List.foldl_cons, ih, List.map_cons, List.prod_cons]
      unfold displayFactor
      cases primeOf c <;> (simp only [mul_one]; ring)

lemma calculateGodelNumber_eq_prod (tape : String) :
    calculateGodelNumber tape
      = ((tape.toList.filter (fun c => c != '|')).map displayFactor).prod := by
  unfold calculateGodelNumber
  rw [display_foldl, one_mul]

lemma primeOf_pos {c : Char} {p : ℕ} (h : primeOf c = some p) : 0 < p := by
  unfold primeOf at h
  cases hf : INTRINSIC_PRIMES.find? (fun e => e.emoji == c) with
  | none => rw [hf] at h; simp at h
  | some e =>
      rw [hf] at h
      simp only [Option.map_some', Option.some.injEq] at h
      have he : e ∈ INTRINSIC_PRIMES := List.mem_of_find?_eq_some hf
      have : ∀ e ∈ INTRINSIC_PRIMES, 0 < e.prime := by decide
      exact h ▸ this e he

lemma godelExponent_pos (primeMappings : List PrimeMappedEmbedding) (p : ℕ) :
    1 ≤ godelExponent primeMappings p := by
  unfold godelExponent
  cases primeMappings.find? (fun m => m.prime == p) with
  | none => exact le_refl 1
  | some m => exact le_max_left _ _

lemma godelFactor_ge_one (primeMappings : List PrimeMappedEmbedding) (c : Char) :
    1 ≤ godelFactor primeMappings c := by
  unfold godelFactor
  cases h : primeOf c with
  | none => exact le_refl 1
  | some p => exact Nat.one_le_pow _ _ (primeOf_pos h)

lemma utf16Units_length (c : Char) :
    (utf16Units c).length = 1 + (if 0x10000 ≤ c.toNat then 1 else 0) := by
  unfold utf16Units
  rcases lt_or_le c.toNat 0x10000 with h | h
  · rw [if_pos h, if_neg (by omega)]
    rfl
  · rw [if_neg (by omega), if_pos h]
    rfl

lemma jsStringLength_eq (s : String) :
    jsStringLength s
      = s.toList.length + s.toList.countP (fun c => decide (0x10000 ≤ c.toNat)) := by
  unfold jsStringLength
  induction s.toList with
  | nil => simp
  | cons c l ih =>
      rw [List.map_cons, List.sum_cons, ih, utf16Units_length, List.length_cons,
        List.countP_cons]
      by_cases h : 0x10000 ≤ c.toNat
      · rw [if_pos h, if_pos (by simpa using h)]
        omega
      · rw [if_neg h, if_neg (by simpa using h)]
        omega

/-- C2: for every segment text and prime-mapping list, the Gödel number
returned by `encodeAsGodel` is at least 1, and it equals 1 whenever no
codepoint of the segment is a registry glyph (empty product). -/
theorem encodeAsGodel_godelNumber_ge_one (s : String)
    (primeMappings : List PrimeMappedEmbedding) :
    1 ≤ (encodeAsGodel s primeMappings).godelNumber ∧
    ((∀ c ∈ s.toList, primeOf c = none) →
      (encodeAsGodel s primeMappings).godelNumber = 1) := by
  rw [godelNumber_eq_prod]
  constructor
  · apply List.one_le_prod_of_one_le
    intro x hx
    obtain ⟨c, _, rfl⟩ := List.mem_map.mp hx
    exact godelFactor_ge_one primeMappings c
  · intro hnone
    apply List.prod_eq_one
    intro x hx
    obtain ⟨c, hc, rfl⟩ := List.mem_map.mp hx
    unfold godelFactor
    rw [hnone c hc]

/-- Witness for C2 at the concrete segment "ab" (no registry glyphs) with the
empty prime-mapping list. -/
theorem encodeAsGodel_godelNumber_ge_one_witness :
    1 ≤ (encodeAsGodel "ab" []).godelNumber ∧
    (encodeAsGodel "ab" []).godelNumber = 1 :=
  ⟨(encodeAsGodel_godelNumber_ge_one "ab" []).1,
   (encodeAsGodel_godelNumber_ge_one "ab" []).2 (by decide)⟩

/-- C3: for a one-glyph segment whose glyph is the registry entry with prime
`p`, and whose entry in the supplied prime-mapping list (the first one with
that prime, as found by `primeMappings.find`) has normalized activation `a`
with `|a| ≤ 1` (as all `tanh` values are), `encodeAsGodel` returns
`godelNumber = p ^ max(1, floor(|a| * 5))`, and that exponent lies in
`1..5`. -/
theorem encodeAsGodel_single_glyph (s : String)
    (primeMappings : List PrimeMappedEmbedding) (c : Char) (p : ℕ)
    (m : PrimeMappedEmbedding)
    (hs : s.toList = [c])
    (hp : primeOf c = some p)
    (hm : primeMappings.find? (fun x => x.prime == p) = some m)
    (ha : |m.normalizedActivation| ≤ 1) :
    (encodeAsGodel s primeMappings).godelNumber
      = p ^ max 1 (Int.toNat ⌊|m.normalizedActivation| * 5⌋) ∧
    1 ≤ max 1 (Int.toNat ⌊|m.normalizedActivation| * 5⌋) ∧
    max 1 (Int.toNat ⌊|m.normalizedActivation| * 5⌋) ≤ 5 := by
  have hexp : godelExponent primeMappings p
      = max 1 (Int.toNat ⌊|m.normalizedActivation| * 5⌋) := by
    unfold godelExponent
    rw [hm]
  refine ⟨?_, le_max_left _ _, ?_⟩
  · rw [godelNumber_eq_prod, hs]
    simp only [List.map_cons, List.map_nil, List.prod_cons, List.prod_nil, mul_one]
    unfold godelFactor
    rw [hp]
    show p ^ godelExponent primeMappings p = _
    rw [hexp]
  · have h5 : |m.normalizedActivation| * 5 ≤ 5 := by nlinarith [abs_nonneg m.normalizedActivation]
    have hfloor : ⌊|m.normalizedActivation| * 5⌋ ≤ 5 := by
      have := Int.floor_le (|m.normalizedActivation| * 5)
      have : (⌊|m.normalizedActivation| * 5⌋ : ℝ) ≤ 5 := le_trans this h5
      exact_mod_cast this
    have : Int.toNat ⌊|m.normalizedActivation| * 5⌋ ≤ 5 := by omega
    omega

/-- Witness entry for C3: the prime-2 registry glyph with normalized
activation 0. -/
def witnessMapping : PrimeMappedEmbedding :=
  { prime := 2, emoji := '🎩', activation := 0, normalizedActivation := 0, rank := 1 }

/-- Witness for C3 at the one-glyph segment "🎩" and a concrete one-entry
prime-mapping list. -/
theorem encodeAsGodel_single_glyph_witness :
    (encodeAsGodel "🎩" [witnessMapping]).godelNumber
      = 2 ^ max 1 (Int.toNat ⌊|witnessMapping.normalizedActivation| * 5⌋) ∧
    1 ≤ max 1 (Int.toNat ⌊|witnessMapping.normalizedActivation| * 5⌋) ∧
    max 1 (Int.toNat ⌊|witnessMapping.normalizedActivation| * 5⌋) ≤ 5 :=
  encodeAsGodel_single_glyph "🎩" [witnessMapping] '🎩' 2 witnessMapping
    rfl rfl rfl (by simp [witnessMapping])

/-- C4 counterexample: the claim says `hierarchy.size` equals the Unicode
codepoint length of the segment; on the one-emoji segment "🎩" the code
stores the JavaScript string length 2 (UTF-16 code units) while the
codepoint length is 1. -/
theorem hierarchy_size_counterexample :
    (encodeAsGodel "🎩" []).hierarchy.size ≠ ("🎩" : String).toList.length := by
  decide

/-- C4 (amended): `hierarchy.size` is the UTF-16 code-unit length of the
segment text (each codepoint at or above U+10000 counts twice, including any
separator, with no pre-stripping), `hierarchy.program` is the segment text
verbatim, and `hierarchy.cycles = floor(size / 7)`. -/
theorem encodeAsGodel_hierarchy (s : String)
    (primeMappings : List PrimeMappedEmbedding) :
    (encodeAsGodel s primeMappings).hierarchy.size
      = s.toList.length + s.toList.countP (fun c => decide (0x10000 ≤ c.toNat)) ∧
    (encodeAsGodel s primeMappings).hierarchy.program = s ∧
    (encodeAsGodel s primeMappings).hierarchy.cycles
      = (encodeAsGodel s primeMappings).hierarchy.size / 7 := by
  refine ⟨?_, rfl, rfl⟩
  show jsStringLength s = _
  exact jsStringLength_eq s

/-- C9: the Gödel number depends only on the multiset of codepoints of the
segment; two segments that are codepoint permutations of each other encode
to the same Gödel number. -/
theorem encodeAsGodel_perm_invariant (s₁ s₂ : String)
    (primeMappings : List PrimeMappedEmbedding)
    (h : s₁.toList.Perm s₂.toList) :
    (encodeAsGodel s₁ primeMappings).godelNumber
      = (encodeAsGodel s₂ primeMappings).godelNumber := by
  rw [godelNumber_eq_prod, godelNumber_eq_prod]
  exact (h.map (godelFactor primeMappings)).prod_eq

/-- Witness for C9 at the two-glyph segments "🎩🎲" and "🎲🎩". -/
theorem encodeAsGodel_perm_invariant_witness :
    (encodeAsGodel "🎩🎲" []).godelNumber = (encodeAsGodel "🎲🎩" []).godelNumber :=
  encodeAsGodel_perm_invariant "🎩🎲" "🎲🎩" [] (List.Perm.swap '🎲' '🎩' [])

lemma displayFactor_dvd (primeMappings : List PrimeMappedEmbedding) (c : Char) :
    displayFactor c ∣ godelFactor primeMappings c := by
  unfold displayFactor godelFactor
  cases h : primeOf c with
  | none => exact dvd_refl 1
  | some p =>
      exact dvd_pow_self p (by have := godelExponent_pos primeMappings p; omega)

lemma display_dvd_core_aux (primeMappings : List PrimeMappedEmbedding) :
    ∀ l : List Char,
      ((l.filter (fun c => c != '|')).map displayFactor).prod
        ∣ (l.map (godelFactor primeMappings)).prod := by
  intro l
  induction l with
  | nil => simp
  | cons c l ih =>
      rw [List.filter_cons]
      by_cases hc : (c != '|') = true
      · rw [if_pos hc, List.map_cons, List.prod_cons, List.map_cons, List.prod_cons]
        exact mul_dvd_mul (displayFactor_dvd primeMappings c) ih
      · rw [if_neg hc, List.map_cons, List.prod_cons]
        exact ih.mul_left _

/-- C10: the display-layer Gödel number (one raw registry prime per
recognized glyph, separators stripped) divides the core `encodeAsGodel`
Gödel number of the same tape, because each recognized glyph contributes its
prime with exponent at least 1 in the core encoding. -/
theorem display_godel_dvd_core (tape : String)
    (primeMappings : List PrimeMappedEmbedding) :
    calculateGodelNumber tape ∣ (encodeAsGodel tape primeMappings).godelNumber := by
  rw [calculateGodelNumber_eq_prod, godelNumber_eq_prod]
  exact display_dvd_core_aux primeMappings tape.toList

/-- Wrap an integer to a signed 32-bit value, as the JavaScript `<< 5` shift
and the `& 0xffffffff` (ToInt32) conversion do: reduce modulo 2^32 into the
interval [-2^31, 2^31). -/
def toInt32 (n : ℤ) : ℤ := (n + 2147483648) % 4294967296 - 2147483648

/-- One step of the rolling hash in `simulateTokenization`:
`hash = ((hash << 5) - hash + emoji.charCodeAt(i)) & 0xffffffff`.
The `<< 5` already wraps its result to a signed 32-bit integer, and the
final `& 0xffffffff` wraps again. -/
def hashStep (hash : ℤ) (c : ℕ) : ℤ := toInt32 (toInt32 (hash * 32) - hash + c)

/-- The rolling hash of one glyph over its UTF-16 code units, starting at
0. -/
def glyphHash (emoji : Char) : ℤ := (utf16Units emoji).foldl hashStep 0

/-- `Math.abs(hash) % 50000`: the simulated token id of one glyph. -/
def glyphTokenId (emoji : Char) : ℕ := (glyphHash emoji).natAbs % 50000

/-- `simulateTokenization` from `src/utils/llm-sampler.ts`: one token id and
one token string per codepoint of the tape (`Array.from(tape)`), in order.
The `modelName` parameter is accepted and ignored, exactly as in the
source. -/
def simulateTokenization (tape : String) (modelName : String) :
    List ℕ × List String :=
  let _ := modelName
  let emojis := tape.toList
  (emojis.map glyphTokenId, emojis.map (fun c => String.mk [c]))

/-- The `metadata` field of `TokenizedTape`. -/
structure TokenMetadata where
  sequenceLength : ℕ
  vocabSize : ℕ
  unknownTokens : ℕ

/-- `TokenizedTape` from `src/types/llm.ts`. -/
structure TokenizedTape where
  model : String
  tokens : List ℕ
  tokenStrings : List String
  metadata : TokenMetadata

/-- The error kinds the sampler can surface: the explicit
"Model ... not initialized" errors of `tokenizeTape` / `embedTape`, and
errors propagated unchanged from the embedding pipeline. -/
inductive SamplerError where
  | modelNotInitialized (model : String)
  | providerError (message : String)
  deriving DecidableEq

/-- The mutable state of `LLMEmojiSampler`: the `tokenizers` and `embedders`
maps, which store one opaque pipeline handle per model name.  Only key
membership is ever observed, so the state is modelled as the lists of keys
present in each map. -/
structure SamplerState where
  tokenizers : List String
  embedders : List String

/-- `initializeModel` from `src/utils/llm-sampler.ts`: await the pipeline
construction (abstracted to its outcome `pipelineResult`); on success record
the model under both maps, on failure rethrow and leave the state
unchanged. -/
def initializeModel (st : SamplerState) (modelName : String)
    (pipelineResult : Except String Unit) : Except String SamplerState :=
  match pipelineResult with
  | .error e => .error e
  | .ok _ => .ok { tokenizers := modelName :: st.tokenizers
                   embedders := modelName :: st.embedders }

/-- Substring search over codepoint lists: does `sub` occur contiguously in
the second list? -/
def containsSeq (sub : List Char) : List Char → Bool
  | [] => sub.isPrefixOf []
  | a :: rest => sub.isPrefixOf (a :: rest) || containsSeq sub rest

/-- JavaScript `s.includes(sub)`: substring containment. -/
def jsIncludes (s sub : String) : Bool := containsSeq sub.toList s.toList

/-- `tokenizeTape` from `src/utils/llm-sampler.ts`: throws the
"not initialized" error when the model has no tokenizer handle, otherwise
returns the simulated tokenization with `sequenceLength`, the fixed
`vocabSize` 50000, and the `[UNK]`-marker count. -/
def tokenizeTape (st : SamplerState) (modelName : String) (tape : String) :
    Except SamplerError TokenizedTape :=
  if modelName ∈ st.tokenizers then
    let tokens := simulateTokenization tape modelName
    .ok { model := modelName
          tokens := tokens.1
          tokenStrings := tokens.2
          metadata := { sequenceLength := tokens.1.length
                        vocabSize := 50000
                        unknownTokens := (tokens.2.filter (fun t => jsIncludes t "[UNK]")).length } }
  else .error (.modelNotInitialized modelName)

/-- `EmbeddingLayer` from `src/types/llm.ts`. -/
structure EmbeddingLayer where
  layerIndex : ℕ
  embedding : List ℝ
  dimension : ℕ
  norm : ℝ

/-- The `metadata` field of `LLMEmbeddings`. -/
structure EmbeddingsMetadata where
  totalLayers : ℕ
  hiddenSize : ℕ
  processingTime : ℝ

/-- `LLMEmbeddings` from `src/types/llm.ts`. -/
structure LLMEmbeddings where
  model : String
  layers : List EmbeddingLayer
  pooledEmbedding : List ℝ
  metadata : EmbeddingsMetadata

/-- `simulateLayerEmbeddings` from `src/utils/llm-sampler.ts`: 12 layers for
model names containing "bert" or "gpt", else 6; each layer scales the pooled
vector by `(layerIndex+1)/layerCount` and adds the per-call random term
`(Math.random() - 0.5) * 0.1`, modelled by the explicit `noise` parameter
indexed by layer and component position. -/
noncomputable def simulateLayerEmbeddings (noise : ℕ → ℕ → ℝ)
    (pooledEmbedding : List ℝ) (modelName : String) : List EmbeddingLayer :=
  let embedding := pooledEmbedding
  let layerCount : ℕ :=
    if jsIncludes modelName "bert" then 12 else if jsIncludes modelName "gpt" then 12 else 6
  (List.range layerCount).map (fun layerIndex =>
    let layerScale : ℝ := ((layerIndex + 1 : ℕ) : ℝ) / (layerCount : ℝ)
    let layerEmbedding := embedding.enum.map
      (fun iv => iv.2 * layerScale + (noise layerIndex iv.1 - 0.5) * 0.1)
    { layerIndex := layerIndex
      embedding := layerEmbedding
      dimension := embedding.length
      norm := Real.sqrt ((layerEmbedding.map (fun v => v * v)).sum) })

/-- `embedTape` from `src/utils/llm-sampler.ts`: throws the
"not initialized" error when the model has no embedder handle; otherwise
runs the embedding pipeline (abstracted to the `provider` function — its
errors propagate unchanged as provider errors) and packages the pooled
vector with the simulated layers.  `processingTime` is the wall-clock
elapsed time, passed explicitly. -/
noncomputable def embedTape (st : SamplerState)
    (provider : String → String → Except String (List ℝ))
    (noise : ℕ → ℕ → ℝ) (processingTime : ℝ)
    (modelName : String) (tape : String) : Except SamplerError LLMEmbeddings :=
  if modelName ∈ st.embedders then
    match provider modelName tape with
    | .error e => .error (.providerError e)
    | .ok embedding =>
        let layers := simulateLayerEmbeddings noise embedding modelName
        .ok { model := modelName
              layers := layers
              pooledEmbedding := embedding
              metadata := { totalLayers := layers.length
                            hiddenSize := embedding.length
                            processingTime := processingTime } }
  else .error (.modelNotInitialized modelName)

/-- The rolling-hash step exactly as the specification words it: the whole
expression `(hash << 5) - hash + c` wrapped once to signed 32 bits. -/
def specHashStep (hash : ℤ) (c : ℕ) : ℤ := toInt32 (hash * 32 - hash + c)

/-- The specification's per-glyph hash: start at 0 and fold `specHashStep`
over the glyph's UTF-16 code units. -/
def specGlyphHash (emoji : Char) : ℤ := (utf16Units emoji).foldl specHashStep 0

/-- The specification's token id: `abs(hash) mod 50000`. -/
def specTokenId (emoji : Char) : ℕ := (specGlyphHash emoji).natAbs % 50000

lemma toInt32_congr {a b : ℤ} (h : a % 4294967296 = b % 4294967296) :
    toInt32 a = toInt32 b := by
  unfold toInt32
  omega

lemma toInt32_emod (a : ℤ) : toInt32 a % 4294967296 = a % 4294967296 := by
  unfold toInt32
  omega

lemma hashStep_eq_spec : hashStep = specHashStep := by
  funext h c
  unfold hashStep specHashStep
  apply toInt32_congr
  have := toInt32_emod (h * 32)
  omega

lemma glyphTokenId_eq_spec : glyphTokenId = specTokenId := by
  funext c
  unfold glyphTokenId specTokenId glyphHash specGlyphHash
  rw [hashStep_eq_spec]

/-- C5: for every initialized model and every tape, `tokenizeTape` succeeds
and yields one token id per codepoint of the tape in iteration order, each
equal to `abs(h) mod 50000` where `h` starts at 0 and is updated by
`h = toInt32(h * 32 - h + c)` over the glyph's UTF-16 code units;
`sequenceLength` is the number of codepoints, and the token ids are the same
for every initialized model. -/
theorem tokenizeTape_token_ids (st : SamplerState) (modelName tape : String)
    (h : modelName ∈ st.tokenizers) :
    ∃ r, tokenizeTape st modelName tape = .ok r ∧
      r.tokens = tape.toList.map specTokenId ∧
      r.tokens.length = tape.toList.length ∧
      r.metadata.sequenceLength = tape.toList.length ∧
      ∀ m' ∈ st.tokenizers, ∃ r', tokenizeTape st m' tape = .ok r' ∧
        r'.tokens = r.tokens := by
  have htok : ∀ m' ∈ st.tokenizers, tokenizeTape st m' tape = .ok
      { model := m'
        tokens := tape.toList.map glyphTokenId
        tokenStrings := tape.toList.map (fun c => String.mk [c])
        metadata := { sequenceLength := (tape.toList.map glyphTokenId).length
                      vocabSize := 50000
                      unknownTokens := ((tape.toList.map (fun c => String.mk [c])).filter
                        (fun t => jsIncludes t "[UNK]")).length } } := by
    intro m' hm'
    unfold tokenizeTape
    rw [if_pos hm']
    rfl
  refine ⟨_, htok modelName h, ?_, ?_, ?_, ?_⟩
  · simp only [glyphTokenId_eq_spec]
  · simp
  · simp
  · intro m' hm'
    exact ⟨_, htok m' hm', rfl⟩

/-- Witness for C5 at a concrete one-model state and the one-glyph tape
"🎩". -/
theorem tokenizeTape_token_ids_witness :
    ∃ r, tokenizeTape ⟨["model-a"], ["model-a"]⟩ "model-a" "🎩" = .ok r ∧
      r.tokens = ("🎩" : String).toList.map specTokenId ∧
      r.tokens.length = ("🎩" : String).toList.length ∧
      r.metadata.sequenceLength = ("🎩" : String).toList.length ∧
      ∀ m' ∈ (⟨["model-a"], ["model-a"]⟩ : SamplerState).tokenizers,
        ∃ r', tokenizeTape ⟨["model-a"], ["model-a"]⟩ m' "🎩" = .ok r' ∧
          r'.tokens = r.tokens :=
  tokenizeTape_token_ids ⟨["model-a"], ["model-a"]⟩ "model-a" "🎩" (by simp)

/-- C6: `tokenizeTape` fails with a model-not-initialized error exactly when
the model has no tokenizer handle, `embedTape` fails with that error exactly
when the model has no embedder handle (whatever the embedding pipeline
does), and after a completed `initializeModel` neither function raises that
error. -/
theorem modelNotInitialized_iff (st : SamplerState)
    (provider : String → String → Except String (List ℝ))
    (noise : ℕ → ℕ → ℝ) (processingTime : ℝ) (modelName tape : String) :
    ((∃ e, tokenizeTape st modelName tape = .error (.modelNotInitialized e))
        ↔ modelName ∉ st.tokenizers) ∧
    ((∃ e, embedTape st provider noise processingTime modelName tape
          = .error (.modelNotInitialized e))
        ↔ modelName ∉ st.embedders) ∧
    (∀ st', initializeModel st modelName (.ok ()) = .ok st' →
      (¬ ∃ e, tokenizeTape st' modelName tape = .error (.modelNotInitialized e)) ∧
      (¬ ∃ e, embedTape st' provider noise processingTime modelName tape
          = .error (.modelNotInitialized e))) := by
  have htok : ∀ (s : SamplerState), modelName ∈ s.tokenizers →
      ¬ ∃ e, tokenizeTape s modelName tape = .error (.modelNotInitialized e) := by
    intro s hs
    rintro ⟨e, he⟩
    unfold tokenizeTape at he
    rw [if_pos hs] at he
    exact Except.noConfusion he
  have hemb : ∀ (s : SamplerState), modelName ∈ s.embedders →
      ¬ ∃ e, embedTape s provider noise processingTime modelName tape
        = .error (.modelNotInitialized e) := by
    intro s hs
    rintro ⟨e, he⟩
    unfold embedTape at he
    rw [if_pos hs] at he
    cases hp : provider modelName tape with
    | error msg => rw [hp] at he; simp at he
    | ok v => rw [hp] at he; exact Except.noConfusion he
  refine ⟨⟨?_, ?_⟩, ⟨?_, ?_⟩, ?_⟩
  · intro he
    by_contra hmem
    exact htok st (by simpa using hmem) he
  · intro hmem
    refine ⟨modelName, ?_⟩
    unfold tokenizeTape
    rw [if_neg hmem]
  · intro he
    by_contra hmem
    exact hemb st (by simpa using hmem) he
  · intro hmem
    refine ⟨modelName, ?_⟩
    unfold embedTape
    rw [if_neg hmem]
  · intro st' hst'
    unfold initializeModel at hst'
    simp only [Except.ok.injEq] at hst'
    subst hst'
    exact ⟨htok _ (List.mem_cons_self _ _), hemb _ (List.mem_cons_self _ _)⟩

/-- Witness for C6 at a concrete empty state, trivial pipeline and noise
functions, and a concrete model name and tape. -/
theorem modelNotInitialized_iff_witness :
    ((∃ e, tokenizeTape ⟨[], []⟩ "model-a" "🎩" = .error (.modelNotInitialized e))
        ↔ "model-a" ∉ (⟨[], []⟩ : SamplerState).tokenizers) ∧
    ((∃ e, embedTape ⟨[], []⟩ (fun _ _ => .ok []) (fun _ _ => 0) 0 "model-a" "🎩"
          = .error (.modelNotInitialized e))
        ↔ "model-a" ∉ (⟨[], []⟩ : SamplerState).embedders) ∧
    (∀ st', initializeModel ⟨[], []⟩ "model-a" (.ok ()) = .ok st' →
      (¬ ∃ e, tokenizeTape st' "model-a" "🎩" = .error (.modelNotInitialized e)) ∧
      (¬ ∃ e, embedTape st' (fun _ _ => .ok []) (fun _ _ => 0) 0 "model-a" "🎩"
          = .error (.modelNotInitialized e))) :=
  modelNotInitialized_iff ⟨[], []⟩ (fun _ _ => .ok []) (fun _ _ => 0) 0 "model-a" "🎩"

/-- `reduceToPrimeDimensions` from `src/utils/llm-sampler.ts`: chunk
averaging with `chunkSize = Math.floor(embedding.length / targetDims)`;
chunk `i` is `embedding.slice(i*chunkSize, i*chunkSize + chunkSize)` and the
output entry is the chunk mean `chunk.reduce(sum)/chunk.length`.  When the
chunk is empty the JavaScript mean is `0/0 = NaN`, which every consumer
immediately coerces to 0 via `reducedDimensions[index] || 0`; in ℝ the same
expression `0/0` is 0 directly, so the observable value agrees. -/
noncomputable def reduceToPrimeDimensions (embedding : List ℝ) (targetDims : ℕ) :
    List ℝ :=
  let chunkSize := embedding.length / targetDims
  (List.range targetDims).map (fun i =>
    let chunk := (embedding.drop (i * chunkSize)).take chunkSize
    chunk.sum / (chunk.length : ℝ))

/-- The per-entry construction in `mapEmbeddingsToPrimes`:
`INTRINSIC_PRIMES.map((primeInfo, index) => ...)` with
`activation = reducedDimensions[index] || 0` (out-of-range and NaN read as
0), `normalizedActivation = Math.tanh(activation)` and the provisional
`rank = index`. -/
noncomputable def buildMappings (reducedDimensions : List ℝ) :
    ℕ → List EmojiPrimeMapping → List PrimeMappedEmbedding
  | _, [] => []
  | index, primeInfo :: rest =>
    { prime := primeInfo.prime
      emoji := primeInfo.emoji
      activation := reducedDimensions.getD index 0
      normalizedActivation := Real.tanh (reducedDimensions.getD index 0)
      rank := index } :: buildMappings reducedDimensions (index + 1) rest

/-- One insertion step of a stable descending sort on
`|normalizedActivation|`: the new element goes in front of the first element
whose key is not larger, i.e. before all later-tied elements.  ECMAScript
`Array.prototype.sort` is required to be stable, and for a consistent
comparator (`(a, b) => Math.abs(b.normalizedActivation) -
Math.abs(a.normalizedActivation)` is consistent on non-NaN values) a stable
sort's output is uniquely determined, so insertion sort that keeps
earlier-listed elements in front of equal keys computes exactly the list the
source's `mappings.sort(...)` produces. -/
noncomputable def insertByActivation (m : PrimeMappedEmbedding) :
    List PrimeMappedEmbedding → List PrimeMappedEmbedding
  | [] => [m]
  | x :: xs =>
    if |x.normalizedActivation| ≤ |m.normalizedActivation| then m :: x :: xs
    else x :: insertByActivation m xs

/-- The stable descending sort by `|normalizedActivation|` used by
`mapEmbeddingsToPrimes`. -/
noncomputable def sortByActivation : List PrimeMappedEmbedding → List PrimeMappedEmbedding
  | [] => []
  | x :: xs => insertByActivation x (sortByActivation xs)

/-- The final `mappings.forEach((mapping, index) => mapping.rank = index + 1)`:
overwrite each rank with its 1-based position. -/
def assignRanks : ℕ → List PrimeMappedEmbedding → List PrimeMappedEmbedding
  | _, [] => []
  | n, m :: ms => { m with rank := n + 1 } :: assignRanks (n + 1) ms

/-- `mapEmbeddingsToPrimes` from `src/utils/llm-sampler.ts`. -/
noncomputable def mapEmbeddingsToPrimes (embeddings : LLMEmbeddings) :
    List PrimeMappedEmbedding :=
  let pooled := embeddings.pooledEmbedding
  let primeCount := INTRINSIC_PRIMES.length
  let reducedDimensions := reduceToPrimeDimensions pooled primeCount
  let mappings := buildMappings reducedDimensions 0 INTRINSIC_PRIMES
  assignRanks 0 (sortByActivation mappings)

/-- The ordering produced by the ranking: strictly larger key first, ties in
registry order (the registry's primes are strictly increasing, so registry
order is prime order). -/
def rankedBefore (a b : PrimeMappedEmbedding) : Prop :=
  |b.normalizedActivation| < |a.normalizedActivation| ∨
    (|a.normalizedActivation| = |b.normalizedActivation| ∧ a.prime < b.prime)

lemma rankedBefore_rank_update {a b : PrimeMappedEmbedding} (h : rankedBefore a b)
    (i j : ℕ) : rankedBefore { a with rank := i } { b with rank := j } := h

lemma mem_insertByActivation {m y : PrimeMappedEmbedding}
    {l : List PrimeMappedEmbedding} (hy : y ∈ insertByActivation m l) :
    y = m ∨ y ∈ l := by
  induction l with
  | nil => simpa [insertByActivation] using hy
  | cons x xs ih =>
      unfold insertByActivation at hy
      by_cases hc : |x.normalizedActivation| ≤ |m.normalizedActivation|
      · rw [if_pos hc] at hy
        rcases List.mem_cons.mp hy with h | h
        · exact Or.inl h
        · exact Or.inr h
      · rw [if_neg hc] at hy
        rcases List.mem_cons.mp hy with h | h
        · exact Or.inr (h ▸ List.mem_cons_self x xs)
        · rcases ih h with h' | h'
          · exact Or.inl h'
          · exact Or.inr (List.mem_cons_of_mem x h')

lemma insertByActivation_perm (m : PrimeMappedEmbedding)
    (l : List PrimeMappedEmbedding) : (insertByActivation m l).Perm (m :: l) := by
  induction l with
  | nil => simp [insertByActivation]
  | cons x xs ih =>
      unfold insertByActivation
      by_cases hc : |x.normalizedActivation| ≤ |m.normalizedActivation|
      · rw [if_pos hc]
      · rw [if_neg hc]
        exact (ih.cons x).trans (List.Perm.swap m x xs)

lemma sortByActivation_perm (l : List PrimeMappedEmbedding) :
    (sortByActivation l).Perm l := by
  induction l with
  | nil => simp [sortByActivation]
  | cons x xs ih =>
      unfold sortByActivation
      exact (insertByActivation_perm x (sortByActivation xs)).trans (ih.cons x)

lemma pairwise_insertByActivation {m : PrimeMappedEmbedding}
    {l : List PrimeMappedEmbedding} (hl : l.Pairwise rankedBefore)
    (hm : ∀ y ∈ l, |m.normalizedActivation| = |y.normalizedActivation| →
      m.prime < y.prime) :
    (insertByActivation m l).Pairwise rankedBefore := by
  induction l with
  | nil => simp [insertByActivation]
  | cons x xs ih =>
      unfold insertByActivation
      rcases List.pairwise_cons.mp hl with ⟨hx, hxs⟩
      by_cases hc : |x.normalizedActivation| ≤ |m.normalizedActivation|
      · rw [if_pos hc]
        refine List.pairwise_cons.mpr ⟨?_, hl⟩
        intro y hy
        rcases List.mem_cons.mp hy with rfl | hyxs
        · rcases lt_or_eq_of_le hc with h | h
          · exact Or.inl h
          · exact Or.inr ⟨h.symm, hm y (List.mem_cons_self _ _) h.symm⟩
        · rcases hx y hyxs with h | ⟨heq, _⟩
          · rcases lt_or_eq_of_le (le_of_lt (lt_of_lt_of_le h hc)) with h' | h'
            · exact Or.inl h'
            · exact Or.inr ⟨h'.symm, hm y (List.mem_cons_of_mem x hyxs) h'.symm⟩
          · have hle : |y.normalizedActivation| ≤ |m.normalizedActivation| :=
              heq ▸ hc
            rcases lt_or_eq_of_le hle with h' | h'
            · exact Or.inl h'
            · exact Or.inr ⟨h'.symm, hm y (List.mem_cons_of_mem x hyxs) h'.symm⟩
      · rw [if_neg hc]
        push_neg at hc
        refine List.pairwise_cons.mpr ⟨?_, ?_⟩
        · intro y hy
          rcases mem_insertByActivation hy with rfl | hyxs
          · exact Or.inl hc
          · exact hx y hyxs
        · exact ih hxs (fun y hy => hm y (List.mem_cons_of_mem x hy))

lemma pairwise_sortByActivation {l : List PrimeMappedEmbedding}
    (hl : l.Pairwise (fun a b =>
      |a.normalizedActivation| = |b.normalizedActivation| → a.prime < b.prime)) :
    (sortByActivation l).Pairwise rankedBefore := by
  induction l with
  | nil => simp [sortByActivation]
  | cons x xs ih =>
      unfold sortByActivation
      rcases List.pairwise_cons.mp hl with ⟨hx, hxs⟩
      refine pairwise_insertByActivation (ih hxs) ?_
      intro y hy
      exact hx y ((sortByActivation_perm xs).mem_iff.mp hy)

lemma assignRanks_map_rank (l : List PrimeMappedEmbedding) :
    ∀ n, (assignRanks n l).map (fun m => m.rank) = List.range' (n + 1) l.length := by
  induction l with
  | nil => intro n; simp [assignRanks]
  | cons x xs ih =>
      intro n
      rw [List.length_cons, List.range'_succ]
      show (n + 1) :: (assignRanks (n + 1) xs).map (fun m => m.rank) = _
      rw [ih (n + 1)]

lemma assignRanks_map_prime (l : List PrimeMappedEmbedding) :
    ∀ n, (assignRanks n l).map (fun m => m.prime) = l.map (fun m => m.prime) := by
  induction l with
  | nil => intro n; simp [assignRanks]
  | cons x xs ih =>
      intro n
      show x.prime :: (assignRanks (n + 1) xs).map (fun m => m.prime) = _
      rw [ih (n + 1), List.map_cons]

lemma assignRanks_length (l : List PrimeMappedEmbedding) :
    ∀ n, (assignRanks n l).length = l.length := by
  induction l with
  | nil => intro n; simp [assignRanks]
  | cons x xs ih => intro n; show _ + 1 = _ + 1; rw [ih (n + 1)]

lemma mem_assignRanks {y : PrimeMappedEmbedding} {l : List PrimeMappedEmbedding} :
    ∀ {n}, y ∈ assignRanks n l → ∃ x ∈ l, ∃ k, y = { x with rank := k } := by
  induction l with
  | nil => intro n hy; simp [assignRanks] at hy
  | cons x xs ih =>
      intro n hy
      rcases List.mem_cons.mp hy with rfl | hy'
      · exact ⟨x, List.mem_cons_self _ _, n + 1, rfl⟩
      · obtain ⟨x', hx', k, hk⟩ := ih hy'
        exact ⟨x', List.mem_cons_of_mem x hx', k, hk⟩

lemma assignRanks_pairwise {l : List PrimeMappedEmbedding}
    (h : l.Pairwise rankedBefore) :
    ∀ n, (assignRanks n l).Pairwise rankedBefore := by
  induction l with
  | nil => intro n; simp [assignRanks]
  | cons x xs ih =>
      intro n
      rcases List.pairwise_cons.mp h with ⟨hx, hxs⟩
      refine List.pairwise_cons.mpr ⟨?_, ih hxs (n + 1)⟩
      intro y hy
      obtain ⟨x', hx', k, rfl⟩ := mem_assignRanks hy
      exact rankedBefore_rank_update (hx x' hx') _ _

lemma buildMappings_map_prime (reducedDimensions : List ℝ) :
    ∀ (n : ℕ) (ps : List EmojiPrimeMapping),
      (buildMappings reducedDimensions n ps).map (fun m => m.prime)
        = ps.map (fun e => e.prime) := by
  intro n ps
  induction ps generalizing n with
  | nil => simp [buildMappings]
  | cons p rest ih =>
      show p.prime :: _ = _
      rw [ih (n + 1), List.map_cons]

lemma mapEmbeddingsToPrimes_eq (embeddings : LLMEmbeddings) :
    mapEmbeddingsToPrimes embeddings
      = assignRanks 0 (sortByActivation (buildMappings
          (reduceToPrimeDimensions embeddings.pooledEmbedding INTRINSIC_PRIMES.length)
          0 INTRINSIC_PRIMES)) := rfl

/-- C1: `mapEmbeddingsToPrimes` returns exactly 10 entries; their primes are
exactly the 10 registry primes; their ranks are exactly 1..10 in order (so a
permutation of 1..10 with no repeats); the list is sorted by descending
`|normalizedActivation|` with ties broken by the original registry order
(stable sort), registry order being strictly increasing prime order; and the
entry with rank 1 has the maximum `|normalizedActivation|` of all 10. -/
theorem mapEmbeddingsToPrimes_ranking (embeddings : LLMEmbeddings) :
    (mapEmbeddingsToPrimes embeddings).length = 10 ∧
    ((mapEmbeddingsToPrimes embeddings).map (fun m => m.prime)).Perm
      [2, 3, 5, 7, 11, 13, 17, 19, 23, 29] ∧
    (mapEmbeddingsToPrimes embeddings).map (fun m => m.rank)
      = [1, 2, 3, 4, 5, 6, 7, 8, 9, 10] ∧
    (mapEmbeddingsToPrimes embeddings).Pairwise rankedBefore ∧
    (∀ m ∈ mapEmbeddingsToPrimes embeddings, m.rank = 1 →
      ∀ m' ∈ mapEmbeddingsToPrimes embeddings,
        |m'.normalizedActivation| ≤ |m.normalizedActivation|) := by
  rw [mapEmbeddingsToPrimes_eq]
  have hbase_prime : (buildMappings
      (reduceToPrimeDimensions embeddings.pooledEmbedding INTRINSIC_PRIMES.length)
      0 INTRINSIC_PRIMES).map (fun m => m.prime)
      = [2, 3, 5, 7, 11, 13, 17, 19, 23, 29] := by
    rw [buildMappings_map_prime]
    rfl
  set base := buildMappings
    (reduceToPrimeDimensions embeddings.pooledEmbedding INTRINSIC_PRIMES.length)
    0 INTRINSIC_PRIMES with hbase
  have hbase_len : base.length = 10 := by
    have := congrArg List.length hbase_prime
    simpa using this
  have hsrt_len : (sortByActivation base).length = 10 :=
    (sortByActivation_perm base).length_eq.trans hbase_len
  have hlen : (assignRanks 0 (sortByActivation base)).length = 10 := by
    rw [assignRanks_length]; exact hsrt_len
  have hprime : ((assignRanks 0 (sortByActivation base)).map (fun m => m.prime)).Perm
      [2, 3, 5, 7, 11, 13, 17, 19, 23, 29] := by
    rw [assignRanks_map_prime]
    have := (sortByActivation_perm base).map (fun m => m.prime)
    rw [hbase_prime] at this
    exact this
  have hrank : (assignRanks 0 (sortByActivation base)).map (fun m => m.rank)
      = [1, 2, 3, 4, 5, 6, 7, 8, 9, 10] := by
    rw [assignRanks_map_rank, hsrt_len]
    rfl
  have hP : base.Pairwise (fun a b => a.prime < b.prime) := by
    apply List.pairwise_map.mp
    rw [hbase_prime]
    decide
  have hQ : base.Pairwise (fun a b =>
      |a.normalizedActivation| = |b.normalizedActivation| → a.prime < b.prime) := by
    refine hP.imp ?_
    intro a b h _
    exact h
  have hpw : (assignRanks 0 (sortByActivation base)).Pairwise rankedBefore :=
    assignRanks_pairwise (pairwise_sortByActivation hQ) 0
  refine ⟨hlen, hprime, hrank, hpw, ?_⟩
  intro m hm hmrank m' hm'
  cases hres : assignRanks 0 (sortByActivation base) with
  | nil => rw [hres] at hm; simp at hm
  | cons f rest =>
      rw [hres] at hrank hm hm' hpw
      rw [List.map_cons] at hrank
      have hf1 : f.rank = 1 := by
        have := congrArg (fun l => l.headI) hrank
        simpa using this
      have hrest_rank : rest.map (fun x => x.rank) = [2, 3, 4, 5, 6, 7, 8, 9, 10] := by
        have := congrArg List.tail hrank
        simpa using this
      have hmf : m = f := by
        rcases List.mem_cons.mp hm with rfl | hmrest
        · rfl
        · exfalso
          have : m.rank ∈ rest.map (fun x => x.rank) := List.mem_map_of_mem _ hmrest
          rw [hrest_rank, hmrank] at this
          exact absurd this (by decide)
      subst hmf
      rcases List.pairwise_cons.mp hpw with ⟨hfirst, _⟩
      rcases List.mem_cons.mp hm' with rfl | hm'rest
      · exact le_refl _
      · rcases hfirst m' hm'rest with h | ⟨heq, _⟩
        · exact le_of_lt h
        · exact le_of_eq heq.symm

lemma reduceToPrimeDimensions_small {v : List ℝ} (h : v.length < 10) :
    reduceToPrimeDimensions v INTRINSIC_PRIMES.length = List.replicate 10 0 := by
  have hlen : INTRINSIC_PRIMES.length = 10 := rfl
  rw [hlen]
  unfold reduceToPrimeDimensions
  have hcs : v.length / 10 = 0 := Nat.div_eq_of_lt h
  rw [hcs]
  simp

lemma getD_replicate_zero (n i : ℕ) : (List.replicate n (0 : ℝ)).getD i 0 = 0 := by
  induction n generalizing i with
  | zero => simp
  | succ k ih =>
      cases i with
      | zero => simp [List.replicate_succ]
      | succ j => rw [List.replicate_succ, List.getD_cons_succ]; exact ih j

lemma buildMappings_zero {red : List ℝ} (hred : ∀ i, red.getD i 0 = 0) :
    ∀ (n : ℕ) (ps : List EmojiPrimeMapping),
      ∀ m ∈ buildMappings red n ps, m.activation = 0 ∧ m.normalizedActivation = 0 := by
  intro n ps
  induction ps generalizing n with
  | nil => intro m hm; simp [buildMappings] at hm
  | cons p rest ih =>
      intro m hm
      unfold buildMappings at hm
      rcases List.mem_cons.mp hm with rfl | hm'
      · constructor
        · show red.getD n 0 = 0
          exact hred n
        · show Real.tanh (red.getD n 0) = 0
          rw [hred n, Real.tanh_zero]
      · exact ih (n + 1) m hm'

lemma insertByActivation_tied {m : PrimeMappedEmbedding}
    {l : List PrimeMappedEmbedding} (hm : m.normalizedActivation = 0)
    (hl : ∀ x ∈ l, x.normalizedActivation = 0) :
    insertByActivation m l = m :: l := by
  cases l with
  | nil => rfl
  | cons x xs =>
      unfold insertByActivation
      rw [if_pos]
      rw [hm, hl x (List.mem_cons_self _ _)]

lemma sortByActivation_tied {l : List PrimeMappedEmbedding}
    (hl : ∀ x ∈ l, x.normalizedActivation = 0) :
    sortByActivation l = l := by
  induction l with
  | nil => rfl
  | cons x xs ih =>
      unfold sortByActivation
      rw [ih (fun y hy => hl y (List.mem_cons_of_mem x hy))]
      exact insertByActivation_tied (hl x (List.mem_cons_self _ _))
        (fun y hy => hl y (List.mem_cons_of_mem x hy))

/-- C8: when the pooled embedding has fewer than 10 components, every chunk
of the reduction is empty, its undefined (`NaN`) mean is read back as 0 by
`reducedDimensions[index] || 0`, and `mapEmbeddingsToPrimes` still returns
10 entries, all with activation 0 and normalized activation 0, so the ranks
1..10 follow registry order. -/
theorem mapEmbeddingsToPrimes_short_embedding (embeddings : LLMEmbeddings)
    (h : embeddings.pooledEmbedding.length < 10) :
    (mapEmbeddingsToPrimes embeddings).length = 10 ∧
    (∀ m ∈ mapEmbeddingsToPrimes embeddings,
      m.activation = 0 ∧ m.normalizedActivation = 0) ∧
    (mapEmbeddingsToPrimes embeddings).map (fun m => m.prime)
      = [2, 3, 5, 7, 11, 13, 17, 19, 23, 29] ∧
    (mapEmbeddingsToPrimes embeddings).map (fun m => m.rank)
      = [1, 2, 3, 4, 5, 6, 7, 8, 9, 10] := by
  rw [mapEmbeddingsToPrimes_eq, reduceToPrimeDimensions_small h]
  have hzero : ∀ m ∈ buildMappings (List.replicate 10 0) 0 INTRINSIC_PRIMES,
      m.activation = 0 ∧ m.normalizedActivation = 0 :=
    buildMappings_zero (getD_replicate_zero 10) 0 INTRINSIC_PRIMES
  rw [sortByActivation_tied (fun x hx => (hzero x hx).2)]
  set base := buildMappings (List.replicate 10 0) 0 INTRINSIC_PRIMES with hbase
  have hbase_prime : base.map (fun m => m.prime)
      = [2, 3, 5, 7, 11, 13, 17, 19, 23, 29] := by
    rw [hbase, buildMappings_map_prime]
    rfl
  have hbase_len : base.length = 10 := by
    have := congrArg List.length hbase_prime
    simpa using this
  refine ⟨?_, ?_, ?_, ?_⟩
  · rw [assignRanks_length]; exact hbase_len
  · intro m hm
    obtain ⟨x, hx, k, rfl⟩ := mem_assignRanks hm
    exact hzero x hx
  · rw [assignRanks_map_prime]; exact hbase_prime
  · rw [assignRanks_map_rank, hbase_len]
    rfl

/-- Concrete one-component embedding used as witness input for C8. -/
def shortEmbedding : LLMEmbeddings :=
  { model := "model-a"
    layers := []
    pooledEmbedding := [1]
    metadata := { totalLayers := 0, hiddenSize := 1, processingTime := 0 } }

/-- Witness for C8 at a concrete embedding with a single pooled component. -/
theorem mapEmbeddingsToPrimes_short_embedding_witness :
    (mapEmbeddingsToPrimes shortEmbedding).length = 10 ∧
    (∀ m ∈ mapEmbeddingsToPrimes shortEmbedding,
      m.activation = 0 ∧ m.normalizedActivation = 0) ∧
    (mapEmbeddingsToPrimes shortEmbedding).map (fun m => m.prime)
      = [2, 3, 5, 7, 11, 13, 17, 19, 23, 29] ∧
    (mapEmbeddingsToPrimes shortEmbedding).map (fun m => m.rank)
      = [1, 2, 3, 4, 5, 6, 7, 8, 9, 10] :=
  mapEmbeddingsToPrimes_short_embedding shortEmbedding (by decide)

/-- The `universalAnchor` field of `LLMSamplingResult`. -/
structure UniversalAnchor where
  prime2Activation : ℝ
  consistencyScore : ℝ
  semanticDrift : ℝ

/-- `LLMSamplingResult` from `src/types/llm.ts`. -/
structure LLMSamplingResult where
  timestamp : ℝ
  tape : String
  tokenization : TokenizedTape
  embeddings : LLMEmbeddings
  primeMapping : List PrimeMappedEmbedding
  godelEncoding : GodelEncoding
  universalAnchor : UniversalAnchor

/-- `calculatePrime2Variance` from `src/components/EmojiTapeDisplay.tsx`:
mean of the `prime2Activation` values, then the mean of the squared
deviations (population variance, divisor N). -/
noncomputable def calculatePrime2Variance (results : List LLMSamplingResult) : ℝ :=
  let activations := results.map (fun r => r.universalAnchor.prime2Activation)
  let mean := activations.sum / (activations.length : ℝ)
  let variance := (activations.map (fun val => (val - mean) ^ 2)).sum
    / (activations.length : ℝ)
  variance

/-- Population variance as the specification words it:
`mean = Σ x / N`, result `Σ (x - mean)^2 / N`, divisor `N` not `N - 1`. -/
noncomputable def populationVariance (xs : List ℝ) : ℝ :=
  (xs.map (fun x => (x - xs.sum / (xs.length : ℝ)) ^ 2)).sum / (xs.length : ℝ)

lemma list_sum_const {l : List ℝ} {c : ℝ} (h : ∀ x ∈ l, x = c) :
    l.sum = (l.length : ℝ) * c := by
  induction l with
  | nil => simp
  | cons x xs ih =>
      rw [List.sum_cons, ih (fun y hy => h y (List.mem_cons_of_mem x hy)),
        h x (List.mem_cons_self _ _), List.length_cons]
      push_cast
      ring

/-- C7: on every non-empty result list, `calculatePrime2Variance` is the
population variance (divisor N) of the `prime2Activation` values; it is 0 on
every single-element list, and 0 whenever all the `prime2Activation` values
are identical. -/
theorem calculatePrime2Variance_spec (results : List LLMSamplingResult)
    (h : results ≠ []) :
    calculatePrime2Variance results
      = populationVariance (results.map (fun r => r.universalAnchor.prime2Activation)) ∧
    (∀ r : LLMSamplingResult, calculatePrime2Variance [r] = 0) ∧
    (∀ c : ℝ, (∀ r ∈ results, r.universalAnchor.prime2Activation = c) →
      calculatePrime2Variance results = 0) := by
  refine ⟨rfl, ?_, ?_⟩
  · intro r
    show (([r].map (fun x => x.universalAnchor.prime2Activation)).map _).sum / _ = 0
    simp
  · intro c hc
    show ((results.map (fun r => r.universalAnchor.prime2Activation)).map _).sum / _ = 0
    set xs := results.map (fun r => r.universalAnchor.prime2Activation) with hxs
    have hall : ∀ x ∈ xs, x = c := by
      intro x hx
      obtain ⟨r, hr, rfl⟩ := List.mem_map.mp hx
      exact hc r hr
    have hlen : xs.length ≠ 0 := by
      rw [hxs, List.length_map]
      exact fun hz => h (List.length_eq_zero.mp hz)
    have hlenR : (xs.length : ℝ) ≠ 0 := Nat.cast_ne_zero.mpr hlen
    have hmean : xs.sum / (xs.length : ℝ) = c := by
      rw [list_sum_const hall]
      field_simp
    have : (xs.map (fun val => (val - xs.sum / (xs.length : ℝ)) ^ 2)).sum = 0 := by
      apply List.sum_eq_zero
      intro y hy
      obtain ⟨x, hx, rfl⟩ := List.mem_map.mp hy
      rw [hmean, hall x hx, sub_self]
      ring
    rw [this, zero_div]

/-- Concrete sampling result used as witness input for C7. -/
def witnessResult : LLMSamplingResult :=
  { timestamp := 0
    tape := ""
    tokenization := { model := "", tokens := [], tokenStrings := []
                      metadata := { sequenceLength := 0, vocabSize := 50000
                                    unknownTokens := 0 } }
    embeddings := { model := "", layers := [], pooledEmbedding := []
                    metadata := { totalLayers := 0, hiddenSize := 0
                                  processingTime := 0 } }
    primeMapping := []
    godelEncoding := { tapeSegment := "", godelNumber := 1, primeMappings := []
                       hierarchy := { size := 0, program := "", cycles := 0 } }
    universalAnchor := { prime2Activation := 2, consistencyScore := 0
                         semanticDrift := 0 } }

/-- Witness for C7 at a concrete single-element result list. -/
theorem calculatePrime2Variance_spec_witness :
    calculatePrime2Variance [witnessResult]
      = populationVariance ([witnessResult].map
          (fun r => r.universalAnchor.prime2Activation)) ∧
    (∀ r : LLMSamplingResult, calculatePrime2Variance [r] = 0) ∧
    (∀ c : ℝ, (∀ r ∈ [witnessResult], r.universalAnchor.prime2Activation = c) →
      calculatePrime2Variance [witnessResult] = 0) :=
  calculatePrime2Variance_spec [witnessResult] (by simp)

end EmojiPrime
